import Mathlib

/-
  Verification development for the pglogrepl demo CDC apply pipeline
  (example/pglogrepl_demo/main.go).

  The Go source is shallowly embedded: the relation cache, column decoder,
  message dispatch (processV2), the apply context (begin/commit/queue/flush)
  and the consumer-loop position tracking become executable Lean functions.
  Bytes-level wire parsing (pglogrepl.ParseV2) is an external collaborator and
  is taken as an opaque parameter, exactly as the design document scopes it.
-/

namespace PglogreplDemo

/-- A log sequence number.  In the source it is `pglogrepl.LSN`, an ordered
64-bit position; ordering is all the pipeline uses, so we model it as Nat. -/
abbrev LSN := Nat

/-- A point on the wall clock (`time.Time`), modelled as Nat time units;
the flush threshold `2 * time.Second` becomes the literal 2. -/
abbrev PgTime := Nat

/-- A raw change-stream buffer (`[]byte` WAL data). -/
abbrev Buffer := List Nat

/-- A native column value as produced by the column decoder: Go `nil`,
a raw string fallback, or a registry-decoded typed value. -/
inductive PgValue where
  | null
  | str (s : String)
  | typed (oid : Nat) (repr_ : String)
  deriving DecidableEq, Repr

/-- The wire kind of one tuple column: `col.DataType` in the source, which is
one of the bytes 'n' (null), 'u' (unchanged toast), 't' (text). -/
inductive ColKind where
  | null
  | unchangedToast
  | text
  deriving DecidableEq, Repr

/-- One column of a row tuple (`pglogrepl.TupleDataColumn`): its kind byte and
its text payload (`col.Data`). -/
structure TupleColumn where
  kind : ColKind
  data : String
  deriving DecidableEq, Repr

/-- One column definition of a relation (`pglogrepl.RelationMessageColumn`):
name and type OID. -/
structure RelColumn where
  name : String
  dataType : Nat
  deriving DecidableEq, Repr

/-- A relation-schema message (`pglogrepl.RelationMessageV2`): relation id,
namespace, name, ordered columns. -/
structure RelationMessageV2 where
  relationID : Nat
  nspace : String
  relationName : String
  columns : List RelColumn
  deriving DecidableEq, Repr

/-- The type registry (`pgtype.Map`): `TypeForOID` either yields a codec
(text payload to value or a decode error) or nothing. -/
def TypeMap := Nat → Option (String → Except String PgValue)

/-- The registry of `pgtype.NewMap()` restricted to what the claims need:
a map with no relevant codec registered. -/
def emptyTypeMap : TypeMap := fun _ => none

/-- `decodeTextColumnData`: if the registry has a codec for the OID, decode
the text representation with it; otherwise fall back to the raw string,
never an error. -/
def decodeTextColumnData (mi : TypeMap) (data : String) (dataType : Nat) :
    Except String PgValue :=
  match mi dataType with
  | some codec => codec data
  | none => Except.ok (PgValue.str data)

/-- A decoded logical replication message, the result of `pglogrepl.ParseV2`:
the tagged variants the `processV2` switch dispatches on. -/
inductive LogicalMsg where
  | relation (rel : RelationMessageV2)
  | begin_
  | commit (commitLSN : LSN) (commitTime : PgTime)
  | insert (relationID : Nat) (tuple : List TupleColumn)
  | update (xid : Nat) (relationID : Nat) (tuple : List TupleColumn)
  | delete (xid : Nat) (relationID : Nat) (tuple : List TupleColumn)
  | truncate (xid : Nat) (relationID : Nat)
  | typeMsg
  | origin
  | logicalDecoding (pfx : String) (content : String)
  | streamStart (xid : Nat) (firstSegment : Bool)
  | streamStop
  | streamCommit (xid : Nat)
  | streamAbort (xid : Nat)
  | unknown
  deriving DecidableEq, Repr

/-- One operation queued into the pending `pgx.Batch`: either a write queued
by `applyContext.queue` (the insert statement with its bound values), or the
replication-origin acknowledgment queued inside `flush`. -/
inductive QueuedOp where
  | write (query : String) (vals : List PgValue)
  | originAck (lsn : LSN) (time_ : PgTime)
  deriving DecidableEq, Repr

/-- The `applyContext` struct: pending batch, time of the last successful
flush (`lastCommitTime` in the source), the recorded commit marker, the
in-transaction flag, and the deferred-flush timer modelled as an armed bit
(the design document's state-machine timer: armed by `Reset`, disarmed by
`Stop` and by firing). -/
structure ApplyContext where
  batch : List QueuedOp
  lastCommitTime : PgTime
  commitLSN : LSN
  commitTime : PgTime
  txnInProgress : Bool
  timerArmed : Bool
  deriving DecidableEq, Repr

/-- `applyContext.queue`: append one write operation to the pending batch. -/
def ApplyContext.queue (a : ApplyContext) (q : String) (args : List PgValue) :
    ApplyContext :=
  { a with batch := a.batch ++ [QueuedOp.write q args] }

/-- `applyContext.begin`: mark a transaction in progress and stop the timer. -/
def ApplyContext.begin (a : ApplyContext) : ApplyContext :=
  { a with txnInProgress := true, timerArmed := false }

/-- `applyContext.flush`: no-op on an empty batch; otherwise queue the
`pg_replication_origin_xact_setup` acknowledgment, send the whole batch
(returned here as the emitted group), reset the batch and record the flush
time. -/
def ApplyContext.flush (a : ApplyContext) (now : PgTime) :
    ApplyContext × Option (List QueuedOp) :=
  if a.batch = [] then (a, none)
  else
    ({ a with batch := [], lastCommitTime := now },
     some (a.batch ++ [QueuedOp.originAck a.commitLSN a.commitTime]))

/-- `applyContext.commit`: record the commit marker, leave the transaction,
then flush immediately when more than 2 time units passed since the last
flush, else re-arm the deferred-flush timer. -/
def ApplyContext.commit (a : ApplyContext) (lsn : LSN) (t : PgTime)
    (now : PgTime) : ApplyContext × Option (List QueuedOp) :=
  let a2 : ApplyContext :=
    { a with commitLSN := lsn, commitTime := t, txnInProgress := false }
  if now - a2.lastCommitTime > 2 then a2.flush now
  else ({ a2 with timerArmed := true }, none)

/-- The outcome of processing one event: normal continuation, `log.Fatal*`
(process exit with a message), or a Go runtime panic. -/
inductive ProcResult (α : Type) where
  | ok (a : α)
  | fatal (msg : String)
  | panicked (msg : String)
  deriving DecidableEq, Repr

/-- The quote-doubling of `pgx.Identifier.Sanitize()` (its
`strings.ReplaceAll(part, quote, quotequote)`), done character by character. -/
def doubleQuotes : List Char → List Char
  | [] => []
  | c :: cs => if c = '"' then c :: c :: doubleQuotes cs else c :: doubleQuotes cs

/-- One part of `pgx.Identifier.Sanitize()`: wrap in double quotes, doubling
any embedded double quote. -/
def sanitizeIdentPart (s : String) : String :=
  "\"" ++ String.mk (doubleQuotes s.data) ++ "\""

/-- `pgx.Identifier{ns, name}.Sanitize()`: both parts sanitized and joined
with a dot. -/
def sanitizeIdent2 (a b : String) : String :=
  sanitizeIdentPart a ++ "." ++ sanitizeIdentPart b

/-- The `$1, $2, ...` placeholder list the insert handler generates, one per
tuple column. -/
def placeholders (n : Nat) : List String :=
  (List.range n).map (fun idx => "$" ++ toString (idx + 1))

/-- The column loop of the `InsertMessageV2` case of `processV2`: walk the
tuple columns in order, in lockstep with `rel.Columns[idx]` (a missing index
is a Go index-out-of-range panic).  Every column contributes its sanitized
name to the column list; `null` binds a nil value, `unchangedToast` binds
nothing, `text` binds the decoded value (a decode error is `log.Fatalln`). -/
def buildCols (mi : TypeMap) (relCols : List RelColumn)
    (cols : List TupleColumn) : ProcResult (List String × List PgValue) :=
  match cols, relCols with
  | [], _ => ProcResult.ok ([], [])
  | _ :: _, [] => ProcResult.panicked "runtime error: index out of range"
  | c :: cs, rc :: rcs =>
    let colName := sanitizeIdentPart rc.name
    match c.kind with
    | ColKind.null =>
      match buildCols mi rcs cs with
      | ProcResult.ok (ns, vs) => ProcResult.ok (colName :: ns, PgValue.null :: vs)
      | r => r
    | ColKind.unchangedToast =>
      match buildCols mi rcs cs with
      | ProcResult.ok (ns, vs) => ProcResult.ok (colName :: ns, vs)
      | r => r
    | ColKind.text =>
      match decodeTextColumnData mi c.data rc.dataType with
      | Except.error e => ProcResult.fatal ("error decoding column data: " ++ e)
      | Except.ok v =>
        match buildCols mi rcs cs with
        | ProcResult.ok (ns, vs) => ProcResult.ok (colName :: ns, v :: vs)
        | r => r

/-- The full `InsertMessageV2` statement builder: the column list from
`buildCols`, then `) overriding system value VALUES(` and one positional
placeholder per tuple column. -/
def processInsertV2 (mi : TypeMap) (rel : RelationMessageV2)
    (tuple : List TupleColumn) : ProcResult (String × List PgValue) :=
  match buildCols mi rel.columns tuple with
  | ProcResult.ok (names, vals) =>
    ProcResult.ok
      ("INSERT INTO " ++ sanitizeIdent2 rel.nspace rel.relationName ++ "(" ++
         String.intercalate ", " names ++
         ") overriding system value VALUES(" ++
         String.intercalate ", " (placeholders tuple.length) ++ ")",
       vals)
  | ProcResult.fatal m => ProcResult.fatal m
  | ProcResult.panicked m => ProcResult.panicked m

/-- The mutable state `processV2` works on: the relation cache (newest entry
first, lookup by id — last write wins), the `inStream` flag, and the shared
`applyContext`. -/
structure SessionState where
  relations : List (Nat × RelationMessageV2)
  inStream : Bool
  applyCtx : ApplyContext
  deriving DecidableEq, Repr

/-- The switch body of `processV2` on an already-parsed message.  Returns the
updated session state and, when a flush was executed, the group of operations
it sent.  `update`/`delete`/`truncate` and the stream sub-transaction
messages only log; the default case (an unknown variant) also only logs. -/
def processMsg (mi : TypeMap) (msg : LogicalMsg) (now : PgTime)
    (st : SessionState) : ProcResult (SessionState × Option (List QueuedOp)) :=
  match msg with
  | LogicalMsg.relation rel =>
    ProcResult.ok ({ st with relations := (rel.relationID, rel) :: st.relations }, none)
  | LogicalMsg.begin_ =>
    ProcResult.ok ({ st with applyCtx := st.applyCtx.begin }, none)
  | LogicalMsg.commit lsn t =>
    let r := st.applyCtx.commit lsn t now
    ProcResult.ok ({ st with applyCtx := r.1 }, r.2)
  | LogicalMsg.insert rid tuple =>
    match st.relations.lookup rid with
    | none => ProcResult.fatal "unknown relation ID"
    | some rel =>
      match processInsertV2 mi rel tuple with
      | ProcResult.ok (q, vals) =>
        ProcResult.ok ({ st with applyCtx := st.applyCtx.queue q vals }, none)
      | ProcResult.fatal m => ProcResult.fatal m
      | ProcResult.panicked m => ProcResult.panicked m
  | LogicalMsg.update _ _ _ => ProcResult.ok (st, none)
  | LogicalMsg.delete _ _ _ => ProcResult.ok (st, none)
  | LogicalMsg.truncate _ _ => ProcResult.ok (st, none)
  | LogicalMsg.typeMsg => ProcResult.ok (st, none)
  | LogicalMsg.origin => ProcResult.ok (st, none)
  | LogicalMsg.logicalDecoding _ _ => ProcResult.ok (st, none)
  | LogicalMsg.streamStart _ _ =>
    ProcResult.ok ({ st with inStream := true }, none)
  | LogicalMsg.streamStop =>
    ProcResult.ok ({ st with inStream := false }, none)
  | LogicalMsg.streamCommit _ => ProcResult.ok (st, none)
  | LogicalMsg.streamAbort _ => ProcResult.ok (st, none)
  | LogicalMsg.unknown => ProcResult.ok (st, none)

/-- `processV2` proper: hand the raw buffer and the *current* `inStream` flag
to the external parser (`pglogrepl.ParseV2`), fatal on a parse error,
otherwise dispatch to the switch body. -/
def processV2 (parse : Buffer → Bool → Except String LogicalMsg)
    (mi : TypeMap) (walData : Buffer) (now : PgTime) (st : SessionState) :
    ProcResult (SessionState × Option (List QueuedOp)) :=
  match parse walData st.inStream with
  | Except.error _ => ProcResult.fatal "Parse logical replication message"
  | Except.ok msg => processMsg mi msg now st

/-- A demultiplexed message of the consumer loop: a primary keepalive
(with `ServerWALEnd` and `ReplyRequested`) or XLogData (with `WALStart`). -/
inductive ConsumerMsg where
  | keepalive (serverWALEnd : LSN) (replyRequested : Bool)
  | xlogData (walStart : LSN)
  deriving DecidableEq, Repr

/-- The consumer loop's position update: `clientXLogPos` advances to the
keepalive's `ServerWALEnd` or the data message's `WALStart` only when that
value is strictly greater than the current position. -/
def updateClientXLogPos (pos : LSN) (m : ConsumerMsg) : LSN :=
  match m with
  | ConsumerMsg.keepalive serverWALEnd _ =>
    if serverWALEnd > pos then serverWALEnd else pos
  | ConsumerMsg.xlogData walStart =>
    if walStart > pos then walStart else pos

/-- The tracked position after consuming a whole interleaving of keepalive
and data messages. -/
def trackPos (pos : LSN) (msgs : List ConsumerMsg) : LSN :=
  msgs.foldl updateClientXLogPos pos

/-- One wakeup of the batcher goroutine's select loop: either a decoded
message pulled from the wal-data channel, or the flush timer firing. -/
inductive BatcherEvent where
  | msg (m : LogicalMsg)
  | timerFire
  deriving DecidableEq, Repr

/-- One select-loop iteration of the batcher goroutine.  The timer follows
the design document's state-machine model: a fire is delivered only while
the timer is armed (a stopped timer does not fire) and firing disarms it;
the fire runs `applyContext.flush`. -/
def batcherStep (mi : TypeMap) (e : BatcherEvent) (now : PgTime)
    (st : SessionState) : ProcResult (SessionState × Option (List QueuedOp)) :=
  match e with
  | BatcherEvent.msg m => processMsg mi m now st
  | BatcherEvent.timerFire =>
    if st.applyCtx.timerArmed then
      let r := st.applyCtx.flush now
      ProcResult.ok ({ st with applyCtx := { r.1 with timerArmed := false } }, r.2)
    else ProcResult.ok (st, none)

/-- The session state instrumented with ghost bookkeeping: `curTxn` numbers
the transactions opened so far, `committedUpTo` is the highest transaction
number whose commit event has been observed, `lastCommit` the position and
timestamp of the most recent commit event, and `tags` records, in order, the
transaction number that queued each operation of the pending batch. -/
structure GhostState where
  sess : SessionState
  curTxn : Nat
  committedUpTo : Nat
  lastCommit : Option (LSN × PgTime)
  tags : List Nat
  deriving Repr

/-- A record of one executed flush: the group of operations sent to the
target connection, the transaction tags of the batch it drained, and the
commit bookkeeping at that moment. -/
structure FlushRecord where
  group : List QueuedOp
  tags : List Nat
  committedUpTo : Nat
  lastCommit : Option (LSN × PgTime)
  deriving Repr

/-- `batcherStep` together with its ghost bookkeeping. -/
def ghostStep (mi : TypeMap) (e : BatcherEvent) (now : PgTime)
    (g : GhostState) : ProcResult (GhostState × Option FlushRecord) :=
  match batcherStep mi e now g.sess with
  | ProcResult.fatal m => ProcResult.fatal m
  | ProcResult.panicked m => ProcResult.panicked m
  | ProcResult.ok (st2, out) =>
    let curTxn := match e with
      | BatcherEvent.msg LogicalMsg.begin_ => g.curTxn + 1
      | _ => g.curTxn
    let committedUpTo := match e with
      | BatcherEvent.msg (LogicalMsg.commit _ _) => curTxn
      | _ => g.committedUpTo
    let lastCommit := match e with
      | BatcherEvent.msg (LogicalMsg.commit l t) => some (l, t)
      | _ => g.lastCommit
    let tags1 := match e with
      | BatcherEvent.msg (LogicalMsg.insert _ _) => g.tags ++ [curTxn]
      | _ => g.tags
    match out with
    | some grp =>
      ProcResult.ok
        ({ sess := st2, curTxn := curTxn, committedUpTo := committedUpTo,
           lastCommit := lastCommit, tags := [] },
         some { group := grp, tags := tags1, committedUpTo := committedUpTo,
                lastCommit := lastCommit })
    | none =>
      ProcResult.ok
        ({ sess := st2, curTxn := curTxn, committedUpTo := committedUpTo,
           lastCommit := lastCommit, tags := tags1 },
         none)

/-- Run the batcher over a timed event trace, collecting one `FlushRecord`
per executed flush; a fatal error or panic stops the run. -/
def runGhost (mi : TypeMap) :
    List (BatcherEvent × PgTime) → GhostState → List FlushRecord × GhostState
  | [], g => ([], g)
  | (e, t) :: rest, g =>
    match ghostStep mi e t g with
    | ProcResult.ok (g2, fr) =>
      let r := runGhost mi rest g2
      (match fr with | some f => f :: r.1 | none => r.1, r.2)
    | _ => ([], g)

/-- The protocol precondition on one event given whether a transaction is
open: `Begin` only outside a transaction, `Commit` and row inserts only
inside one (pgoutput sends row changes between Begin and Commit). -/
def eventWf (e : BatcherEvent) (inTxn : Bool) : Bool :=
  match e with
  | BatcherEvent.msg LogicalMsg.begin_ => !inTxn
  | BatcherEvent.msg (LogicalMsg.commit _ _) => inTxn
  | BatcherEvent.msg (LogicalMsg.insert _ _) => inTxn
  | _ => true

/-- How one event moves the protocol's transaction-open flag. -/
def nextInTxn (e : BatcherEvent) (inTxn : Bool) : Bool :=
  match e with
  | BatcherEvent.msg LogicalMsg.begin_ => true
  | BatcherEvent.msg (LogicalMsg.commit _ _) => false
  | _ => inTxn

/-- Well-formedness of a timed event trace under the protocol precondition. -/
def wfTrace : List (BatcherEvent × PgTime) → Bool → Bool
  | [], _ => true
  | (e, _) :: rest, inTxn => eventWf e inTxn && wfTrace rest (nextInTxn e inTxn)

/-- The `applyContext` as `main` builds it: empty batch, `lastCommitTime`
set to the current time, and the timer created armed by `time.NewTimer`. -/
def initApplyContext (now0 : PgTime) : ApplyContext :=
  { batch := [], lastCommitTime := now0, commitLSN := 0, commitTime := 0,
    txnInProgress := false, timerArmed := true }

/-- The initial session state of `main`: empty relation cache, streaming
mode off, fresh apply context. -/
def initSession (now0 : PgTime) : SessionState :=
  { relations := [], inStream := false, applyCtx := initApplyContext now0 }

/-- The initial ghost state. -/
def initGhost (now0 : PgTime) : GhostState :=
  { sess := initSession now0, curTxn := 0, committedUpTo := 0,
    lastCommit := none, tags := [] }

/-- The run-time invariant tying the ghost bookkeeping to the batcher state:
tags mirror the batch one to one; every tag is a transaction that has been
opened; outside a transaction everything queued is already committed; an
armed timer implies no open transaction and, if the batch is non-empty, a
recorded commit marker matching the context's fields; and the pending batch
holds only `write` operations (the origin acknowledgment is added by flush
alone). -/
def GhostInv (g : GhostState) (inTxn : Bool) : Prop :=
  g.sess.applyCtx.txnInProgress = inTxn ∧
  g.tags.length = g.sess.applyCtx.batch.length ∧
  (∀ tg ∈ g.tags, tg ≤ g.curTxn) ∧
  g.committedUpTo ≤ g.curTxn ∧
  (inTxn = false → ∀ tg ∈ g.tags, tg ≤ g.committedUpTo) ∧
  (g.sess.applyCtx.timerArmed = true → inTxn = false) ∧
  (g.sess.applyCtx.timerArmed = true → g.sess.applyCtx.batch ≠ [] →
    g.lastCommit = some (g.sess.applyCtx.commitLSN, g.sess.applyCtx.commitTime)) ∧
  (∀ op ∈ g.sess.applyCtx.batch, ∃ q vs, op = QueuedOp.write q vs)

/-- What is true of every executed flush: the drained operations carry tags
of committed transactions only, and the group sent is those write operations
followed by exactly the origin acknowledgment of the most recent commit. -/
def FlushOk (f : FlushRecord) : Prop :=
  (∀ tg ∈ f.tags, tg ≤ f.committedUpTo) ∧
  (∃ p t, f.lastCommit = some (p, t) ∧
    ∃ pre, f.group = pre ++ [QueuedOp.originAck p t] ∧
      pre.length = f.tags.length ∧
      (∀ op ∈ pre, ∃ q vs, op = QueuedOp.write q vs))

/-- The `inStream` value handed to `pglogrepl.ParseV2` for each buffer of a
trace, in order (processing stops at a fatal error or panic, after the
failing decode already consumed the current flag). -/
def decodeFlags (parse : Buffer → Bool → Except String LogicalMsg)
    (mi : TypeMap) : List (Buffer × PgTime) → SessionState → List Bool
  | [], _ => []
  | (b, t) :: rest, st =>
    st.inStream ::
      (match processV2 parse mi b t st with
       | ProcResult.ok (st2, _) => decodeFlags parse mi rest st2
       | _ => [])

/-- The session state at the moment each buffer of a trace is decoded. -/
def decodeStates (parse : Buffer → Bool → Except String LogicalMsg)
    (mi : TypeMap) : List (Buffer × PgTime) → SessionState → List SessionState
  | [], _ => []
  | (b, t) :: rest, st =>
    st ::
      (match processV2 parse mi b t st with
       | ProcResult.ok (st2, _) => decodeStates parse mi rest st2
       | _ => [])

/-- The position a consumer message reports: `ServerWALEnd` of a keepalive,
`WALStart` of a data message. -/
def observedPos : ConsumerMsg → LSN
  | ConsumerMsg.keepalive serverWALEnd _ => serverWALEnd
  | ConsumerMsg.xlogData walStart => walStart

/-- Whether a message is one of the two stream-mode toggles. -/
def isStreamToggle : LogicalMsg → Bool
  | LogicalMsg.streamStart _ _ => true
  | LogicalMsg.streamStop => true
  | _ => false

/-! ## Theorems -/

/-- A two-column relation `public.t(id, payload)` used as concrete input. -/
def relPublicT : RelationMessageV2 :=
  { relationID := 1, nspace := "public", relationName := "t",
    columns := [{ name := "id", dataType := 23 }, { name := "payload", dataType := 25 }] }

/-- C1 (code bug exhibit): on an insert whose second column is unchanged
toast, the generated statement still names `payload` in its column list and
still generates a `$2` placeholder for it, while binding only one value —
the unchanged-toast column is dropped from the bound values but *not* from
the column list, so the statement's placeholder count (2) exceeds its
argument count (1). -/
theorem toastColumnKeptInColumnList :
    processInsertV2 emptyTypeMap relPublicT
      [{ kind := ColKind.text, data := "1" }, { kind := ColKind.unchangedToast, data := "" }] =
    ProcResult.ok
      ("INSERT INTO \"public\".\"t\"(\"id\", \"payload\") overriding system value VALUES($1, $2)",
       [PgValue.str "1"]) := rfl

/-- One consumer message never decreases the tracked position. -/
lemma le_updateClientXLogPos (pos : LSN) (m : ConsumerMsg) :
    pos ≤ updateClientXLogPos pos m := by
  cases m <;> simp only [updateClientXLogPos] <;> split
  · exact Nat.le_of_lt (by assumption)
  · exact Nat.le_refl _
  · exact Nat.le_of_lt (by assumption)
  · exact Nat.le_refl _

/-- A whole interleaving never decreases the tracked position. -/
lemma le_trackPos (msgs : List ConsumerMsg) (pos : LSN) :
    pos ≤ trackPos pos msgs := by
  induction msgs generalizing pos with
  | nil => simp [trackPos]
  | cons m ms ih =>
    have h1 : pos ≤ updateClientXLogPos pos m := le_updateClientXLogPos pos m
    have h2 : updateClientXLogPos pos m ≤ trackPos (updateClientXLogPos pos m) ms := ih _
    have h3 : trackPos pos (m :: ms) = trackPos (updateClientXLogPos pos m) ms := rfl
    rw [h3]
    exact Nat.le_trans h1 h2

/-- C3: the consumer's tracked replication position is monotonically
non-decreasing across any interleaving of keepalive and data messages; one
step changes it only when the observed position (keepalive `ServerWALEnd` or
data `WALStart`) is strictly greater, in which case it becomes that observed
position; and a keepalive whose `ServerWALEnd` is below the tracked position
leaves it unchanged. -/
theorem trackedPositionMonotone :
    (∀ pos m, pos ≤ updateClientXLogPos pos m) ∧
    (∀ pos msgs, pos ≤ trackPos pos msgs) ∧
    (∀ pos m, updateClientXLogPos pos m ≠ pos →
      pos < observedPos m ∧ updateClientXLogPos pos m = observedPos m) ∧
    (∀ pos e rr, e < pos →
      updateClientXLogPos pos (ConsumerMsg.keepalive e rr) = pos) := by
  refine ⟨le_updateClientXLogPos, fun pos msgs => le_trackPos msgs pos, ?_, ?_⟩
  · intro pos m hne
    cases m with
    | keepalive e rr =>
      by_cases h : e > pos
      · simp [updateClientXLogPos, observedPos, h]
      · exact absurd (by simp [updateClientXLogPos, h]) hne
    | xlogData s =>
      by_cases h : s > pos
      · simp [updateClientXLogPos, observedPos, h]
      · exact absurd (by simp [updateClientXLogPos, h]) hne
  · intro pos e rr h
    have h2 : ¬ e > pos := Nat.not_lt.mpr (Nat.le_of_lt h)
    simp [updateClientXLogPos, h2]

/-- Witness for C3 at a concrete input: a keepalive reporting 50 while the
tracked position is 100 leaves the position at 100. -/
theorem trackedPositionMonotone_witness :
    (50 : LSN) < 100 ∧
    updateClientXLogPos 100 (ConsumerMsg.keepalive 50 false) = 100 :=
  ⟨by decide, trackedPositionMonotone.2.2.2 100 50 false (by decide)⟩

/-- C5: on a commit event, after recording the commit position, timestamp
and the end of the transaction, the batcher flushes immediately exactly when
more than 2 time units have elapsed since the last successful flush, and
otherwise re-arms the deferred-flush timer for that threshold. -/
theorem commitFlushPolicy (a : ApplyContext) (lsn : LSN) (t now : PgTime) :
    (now - a.lastCommitTime > 2 →
      a.commit lsn t now =
        ApplyContext.flush
          { a with commitLSN := lsn, commitTime := t, txnInProgress := false } now) ∧
    (now - a.lastCommitTime ≤ 2 →
      a.commit lsn t now =
        ({ a with commitLSN := lsn, commitTime := t, txnInProgress := false,
                  timerArmed := true }, none)) := by
  constructor
  · intro h
    simp [ApplyContext.commit, h]
  · intro h
    have h2 : ¬ (now - a.lastCommitTime > 2) := Nat.not_lt.mpr h
    simp [ApplyContext.commit, h2]

/-- Witness for C5 at a concrete input: a commit 10 time units after the
last flush (threshold 2) takes the immediate-flush branch. -/
theorem commitFlushPolicy_witness :
    10 - (initApplyContext 0).lastCommitTime > 2 ∧
    (initApplyContext 0).commit 5 7 10 =
      ApplyContext.flush
        { initApplyContext 0 with commitLSN := 5, commitTime := 7,
                                  txnInProgress := false } 10 :=
  ⟨by decide, (commitFlushPolicy (initApplyContext 0) 5 7 10).1 (by decide)⟩

/-- C6 (counterexample to the claim as stated): an update row-change event
whose relation ID (42) has no entry in the relation cache is *not* fatal —
`processV2` only logs it and returns with the session state unchanged, so
not every row-change event with an unknown relation terminates the session. -/
theorem unknownRelationUpdateNotFatal :
    (initSession 0).relations.lookup 42 = none ∧
    processMsg emptyTypeMap (LogicalMsg.update 7 42 []) 0 (initSession 0) =
      ProcResult.ok (initSession 0, none) :=
  ⟨rfl, rfl⟩

/-- C6 (amended): an *insert* event whose relation ID is not in the relation
cache is fatal (`log.Fatalf`, terminating the session, the event
uninterpreted), while update, delete and truncate events are logged stubs
that never consult the cache and never terminate. -/
theorem unknownRelationInsertFatal :
    (∀ (mi : TypeMap) (st : SessionState) (rid : Nat)
        (tuple : List TupleColumn) (now : PgTime),
      st.relations.lookup rid = none →
      processMsg mi (LogicalMsg.insert rid tuple) now st =
        ProcResult.fatal "unknown relation ID") ∧
    (∀ (mi : TypeMap) (st : SessionState) (xid rid : Nat)
        (tuple : List TupleColumn) (now : PgTime),
      processMsg mi (LogicalMsg.update xid rid tuple) now st =
        ProcResult.ok (st, none)) ∧
    (∀ (mi : TypeMap) (st : SessionState) (xid rid : Nat)
        (tuple : List TupleColumn) (now : PgTime),
      processMsg mi (LogicalMsg.delete xid rid tuple) now st =
        ProcResult.ok (st, none)) ∧
    (∀ (mi : TypeMap) (st : SessionState) (xid rid : Nat) (now : PgTime),
      processMsg mi (LogicalMsg.truncate xid rid) now st =
        ProcResult.ok (st, none)) := by
  refine ⟨?_, fun _ _ _ _ _ _ => rfl, fun _ _ _ _ _ _ => rfl, fun _ _ _ _ _ => rfl⟩
  intro mi st rid tuple now h
  simp [processMsg, h]

/-- Witness for the amended C6 at a concrete input: an insert for the
uncached relation 9 is fatal. -/
theorem unknownRelationInsertFatal_witness :
    (initSession 0).relations.lookup 9 = none ∧
    processMsg emptyTypeMap (LogicalMsg.insert 9 []) 0 (initSession 0) =
      ProcResult.fatal "unknown relation ID" :=
  ⟨rfl, unknownRelationInsertFatal.1 emptyTypeMap (initSession 0) 9 [] 0 rfl⟩

/-- C7: a successfully decoded message of an unrecognized variant is only
logged: processing returns the session state unchanged (relation cache,
pending batch and streaming flag included), flushes nothing, and is not
fatal. -/
theorem unknownVariantSkipped (mi : TypeMap) (st : SessionState) (now : PgTime) :
    processMsg mi LogicalMsg.unknown now st = ProcResult.ok (st, none) := rfl

/-- C8: decoding a text-kind column falls back to the raw string (without
error) exactly when the registry has no codec for the type OID, and uses
the registered codec otherwise. -/
theorem textColumnDecode (mi : TypeMap) (data : String) (oid : Nat) :
    (mi oid = none →
      decodeTextColumnData mi data oid = Except.ok (PgValue.str data)) ∧
    (∀ codec, mi oid = some codec →
      decodeTextColumnData mi data oid = codec data) := by
  constructor
  · intro h; simp [decodeTextColumnData, h]
  · intro codec h; simp [decodeTextColumnData, h]

/-- Witness for C8 at a concrete input: with no codec registered for OID 23,
the raw text "42" is returned unmodified. -/
theorem textColumnDecode_witness :
    emptyTypeMap 23 = none ∧
    decodeTextColumnData emptyTypeMap "42" 23 = Except.ok (PgValue.str "42") :=
  ⟨rfl, (textColumnDecode emptyTypeMap "42" 23).1 rfl⟩

/-- C9: `StreamStart` sets the streaming flag, `StreamStop` clears it, no
other message changes it, and the flag handed to the parser for each buffer
is exactly the session's current flag at that decode (so a toggle governs
every subsequent decode until the next toggle). -/
theorem streamFlagThreaded :
    (∀ (mi : TypeMap) (st : SessionState) (now : PgTime) (xid : Nat) (fs : Bool),
      processMsg mi (LogicalMsg.streamStart xid fs) now st =
        ProcResult.ok ({ st with inStream := true }, none)) ∧
    (∀ (mi : TypeMap) (st : SessionState) (now : PgTime),
      processMsg mi LogicalMsg.streamStop now st =
        ProcResult.ok ({ st with inStream := false }, none)) ∧
    (∀ (mi : TypeMap) (m : LogicalMsg) (now : PgTime) (st st2 : SessionState)
        (out : Option (List QueuedOp)),
      isStreamToggle m = false →
      processMsg mi m now st = ProcResult.ok (st2, out) →
      st2.inStream = st.inStream) ∧
    (∀ (parse : Buffer → Bool → Except String LogicalMsg) (mi : TypeMap)
        (bufs : List (Buffer × PgTime)) (st : SessionState),
      decodeFlags parse mi bufs st =
        (decodeStates parse mi bufs st).map SessionState.inStream) := by
  refine ⟨fun _ _ _ _ _ => rfl, fun _ _ _ => rfl, ?_, ?_⟩
  · intro mi m now st st2 out htog hp
    cases m with
    | relation rel =>
      simp only [processMsg, ProcResult.ok.injEq, Prod.mk.injEq] at hp
      rw [← hp.1]
    | begin_ =>
      simp only [processMsg, ProcResult.ok.injEq, Prod.mk.injEq] at hp
      rw [← hp.1]
    | commit lsn t =>
      simp only [processMsg, ProcResult.ok.injEq, Prod.mk.injEq] at hp
      rw [← hp.1]
    | insert rid tuple =>
      cases hl : st.relations.lookup rid with
      | none => simp [processMsg, hl] at hp
      | some rel =>
        cases hpi : processInsertV2 mi rel tuple with
        | ok p =>
          obtain ⟨q, vals⟩ := p
          simp only [processMsg, hl, hpi, ProcResult.ok.injEq, Prod.mk.injEq] at hp
          rw [← hp.1]
        | fatal m2 => simp [processMsg, hl, hpi] at hp
        | panicked m2 => simp [processMsg, hl, hpi] at hp
    | update xid rid tuple =>
      simp only [processMsg, ProcResult.ok.injEq, Prod.mk.injEq] at hp
      rw [← hp.1]
    | delete xid rid tuple =>
      simp only [processMsg, ProcResult.ok.injEq, Prod.mk.injEq] at hp
      rw [← hp.1]
    | truncate xid rid =>
      simp only [processMsg, ProcResult.ok.injEq, Prod.mk.injEq] at hp
      rw [← hp.1]
    | typeMsg =>
      simp only [processMsg, ProcResult.ok.injEq, Prod.mk.injEq] at hp
      rw [← hp.1]
    | origin =>
      simp only [processMsg, ProcResult.ok.injEq, Prod.mk.injEq] at hp
      rw [← hp.1]
    | logicalDecoding pfx content =>
      simp only [processMsg, ProcResult.ok.injEq, Prod.mk.injEq] at hp
      rw [← hp.1]
    | streamStart xid fs => simp [isStreamToggle] at htog
    | streamStop => simp [isStreamToggle] at htog
    | streamCommit xid =>
      simp only [processMsg, ProcResult.ok.injEq, Prod.mk.injEq] at hp
      rw [← hp.1]
    | streamAbort xid =>
      simp only [processMsg, ProcResult.ok.injEq, Prod.mk.injEq] at hp
      rw [← hp.1]
    | unknown =>
      simp only [processMsg, ProcResult.ok.injEq, Prod.mk.injEq] at hp
      rw [← hp.1]
  · intro parse mi bufs
    induction bufs with
    | nil => intro st; rfl
    | cons bt rest ih =>
      intro st
      obtain ⟨b, t⟩ := bt
      cases hres : processV2 parse mi b t st with
      | ok p =>
        obtain ⟨st2, out⟩ := p
        simp [decodeFlags, decodeStates, hres, ih]
      | fatal m => simp [decodeFlags, decodeStates, hres]
      | panicked m => simp [decodeFlags, decodeStates, hres]

/-- Witness for C9 at a concrete input: a relation message is not a stream
toggle and leaves the flag unchanged. -/
theorem streamFlagThreaded_witness :
    isStreamToggle (LogicalMsg.relation relPublicT) = false ∧
    ({ initSession 0 with
        relations := [(1, relPublicT)] } : SessionState).inStream =
      (initSession 0).inStream :=
  ⟨rfl,
   streamFlagThreaded.2.2.1 emptyTypeMap (LogicalMsg.relation relPublicT) 0
     (initSession 0) _ none rfl rfl⟩

/-- The column loop panics as soon as the tuple outruns the cached relation
columns, provided no registered codec intervenes with a decode error first
(an unregistered registry decodes every text column by fallback). -/
lemma buildCols_panic (mi : TypeMap) (hmi : ∀ oid, mi oid = none) :
    ∀ (relCols : List RelColumn) (cols : List TupleColumn),
      relCols.length < cols.length →
      buildCols mi relCols cols =
        ProcResult.panicked "runtime error: index out of range" := by
  intro relCols
  induction relCols with
  | nil =>
    intro cols h
    match cols with
    | [] => simp at h
    | c :: cs => rfl
  | cons rc rcs ih =>
    intro cols h
    match cols with
    | [] => simp at h
    | c :: cs =>
      have h2 : rcs.length < cs.length := by
        simp only [List.length_cons] at h
        omega
      cases hk : c.kind with
      | null => simp [buildCols, hk, ih cs h2]
      | unchangedToast => simp [buildCols, hk, ih cs h2]
      | text =>
        simp [buildCols, hk, decodeTextColumnData, hmi, ih cs h2]

/-- C10: an insert whose tuple has more columns than the cached relation
schema panics with an index-out-of-range (the relation's columns are indexed
by tuple position without a bounds check); stated for a registry with no
codecs registered, so no column aborts earlier with a decode fatal. -/
theorem insertWiderTuplePanics (mi : TypeMap) (hmi : ∀ oid, mi oid = none)
    (st : SessionState) (rid : Nat) (rel : RelationMessageV2)
    (tuple : List TupleColumn) (now : PgTime)
    (hrel : st.relations.lookup rid = some rel)
    (hlen : rel.columns.length < tuple.length) :
    processMsg mi (LogicalMsg.insert rid tuple) now st =
      ProcResult.panicked "runtime error: index out of range" := by
  simp [processMsg, hrel, processInsertV2,
    buildCols_panic mi hmi rel.columns tuple hlen]

/-- A one-column relation used as concrete input. -/
def relNarrow : RelationMessageV2 :=
  { relationID := 2, nspace := "public", relationName := "narrow",
    columns := [{ name := "id", dataType := 23 }] }

/-- A session whose cache holds only `relNarrow`. -/
def sessionNarrow : SessionState :=
  { relations := [(2, relNarrow)], inStream := false,
    applyCtx := initApplyContext 0 }

/-- Witness for C10 at a concrete input: a two-column tuple against the
cached one-column schema panics. -/
theorem insertWiderTuplePanics_witness :
    sessionNarrow.relations.lookup 2 = some relNarrow ∧
    relNarrow.columns.length <
      ([{ kind := ColKind.text, data := "1" },
        { kind := ColKind.text, data := "2" }] : List TupleColumn).length ∧
    processMsg emptyTypeMap
      (LogicalMsg.insert 2
        [{ kind := ColKind.text, data := "1" },
         { kind := ColKind.text, data := "2" }]) 0 sessionNarrow =
      ProcResult.panicked "runtime error: index out of range" :=
  ⟨rfl, by decide,
   insertWiderTuplePanics emptyTypeMap (fun _ => rfl) sessionNarrow 2 relNarrow
     [{ kind := ColKind.text, data := "1" },
      { kind := ColKind.text, data := "2" }] 0 rfl (by decide)⟩

/-- One batcher step preserves the run-time invariant and every flush it
executes satisfies `FlushOk`. -/
lemma ghostStep_inv (mi : TypeMap) (e : BatcherEvent) (now : PgTime)
    (g : GhostState) (inTxn : Bool) (g2 : GhostState) (fr : Option FlushRecord)
    (hwf : eventWf e inTxn = true)
    (hinv : GhostInv g inTxn)
    (hstep : ghostStep mi e now g = ProcResult.ok (g2, fr)) :
    GhostInv g2 (nextInTxn e inTxn) ∧ (∀ f, fr = some f → FlushOk f) := by
  obtain ⟨h1, h2, h3, h4, h5, h6, h7, h8⟩ := hinv
  cases e with
  | timerFire =>
    by_cases ha : g.sess.applyCtx.timerArmed = true
    · by_cases hb : g.sess.applyCtx.batch = []
      · simp only [ghostStep, batcherStep, ApplyContext.flush, ha, hb,
          if_true, ProcResult.ok.injEq, Prod.mk.injEq] at hstep
        obtain ⟨hg, hf⟩ := hstep
        subst hg; subst hf
        refine ⟨⟨h1, ?_, h3, h4, h5, fun hc => Bool.noConfusion hc,
          fun hc => Bool.noConfusion hc, ?_⟩,
          fun f hff => Option.noConfusion hff⟩
        · simpa [hb] using h2
        · intro op hop; simp at hop
      · simp only [ghostStep, batcherStep, ApplyContext.flush, ha, hb,
          if_true, if_false, ProcResult.ok.injEq, Prod.mk.injEq] at hstep
        obtain ⟨hg, hf⟩ := hstep
        subst hg; subst hf
        constructor
        · refine ⟨h1, rfl, ?_, h4, ?_, fun hc => Bool.noConfusion hc,
            fun hc => Bool.noConfusion hc, ?_⟩
          · intro tg htg; simp at htg
          · intro _ tg htg; simp at htg
          · intro op hop; simp at hop
        · intro f hff
          injection hff with hff2
          subst hff2
          refine ⟨h5 (h6 ha), g.sess.applyCtx.commitLSN, g.sess.applyCtx.commitTime,
            h7 ha hb, g.sess.applyCtx.batch, rfl, h2.symm, h8⟩
    · have ha2 : g.sess.applyCtx.timerArmed = false := by
        revert ha; cases g.sess.applyCtx.timerArmed <;> simp
      simp only [ghostStep, batcherStep, ha2, Bool.false_eq_true, if_false,
        ProcResult.ok.injEq, Prod.mk.injEq] at hstep
      obtain ⟨hg, hf⟩ := hstep
      subst hg; subst hf
      exact ⟨⟨h1, h2, h3, h4, h5, h6, h7, h8⟩, fun f hff => Option.noConfusion hff⟩
  | msg m =>
    cases m with
    | begin_ =>
      simp only [ghostStep, batcherStep, processMsg, ApplyContext.begin,
        ProcResult.ok.injEq, Prod.mk.injEq] at hstep
      obtain ⟨hg, hf⟩ := hstep
      subst hg; subst hf
      refine ⟨⟨rfl, h2, ?_, Nat.le_succ_of_le h4, ?_, ?_, ?_, h8⟩,
        fun f hff => Option.noConfusion hff⟩
      · intro tg htg; exact Nat.le_succ_of_le (h3 tg htg)
      · intro hc; exact Bool.noConfusion hc
      · intro hc; exact Bool.noConfusion hc
      · intro hc; exact Bool.noConfusion hc
    | commit lsn tc =>
      by_cases hc : now - g.sess.applyCtx.lastCommitTime > 2
      · by_cases hb : g.sess.applyCtx.batch = []
        · simp only [ghostStep, batcherStep, processMsg, ApplyContext.commit,
            ApplyContext.flush, hc, hb, if_true, ProcResult.ok.injEq,
            Prod.mk.injEq] at hstep
          obtain ⟨hg, hf⟩ := hstep
          subst hg; subst hf
          refine ⟨⟨rfl, ?_, h3, Nat.le_refl _, fun _ => h3, fun _ => rfl,
            fun _ _ => rfl, ?_⟩, fun f hff => Option.noConfusion hff⟩
          · simpa [hb] using h2
          · intro op hop; simp at hop
        · simp only [ghostStep, batcherStep, processMsg, ApplyContext.commit,
            ApplyContext.flush, hc, hb, if_true, if_false, ProcResult.ok.injEq,
            Prod.mk.injEq] at hstep
          obtain ⟨hg, hf⟩ := hstep
          subst hg; subst hf
          constructor
          · refine ⟨rfl, rfl, ?_, Nat.le_refl _, ?_, fun _ => rfl,
              fun _ _ => rfl, ?_⟩
            · intro tg htg; simp at htg
            · intro _ tg htg; simp at htg
            · intro op hop; simp at hop
          · intro f hff
            injection hff with hff2
            subst hff2
            exact ⟨h3, lsn, tc, rfl, g.sess.applyCtx.batch, rfl, h2.symm, h8⟩
      · simp only [ghostStep, batcherStep, processMsg, ApplyContext.commit, hc,
          if_false, ProcResult.ok.injEq, Prod.mk.injEq] at hstep
        obtain ⟨hg, hf⟩ := hstep
        subst hg; subst hf
        refine ⟨⟨rfl, h2, h3, Nat.le_refl _, fun _ => h3, fun _ => rfl,
          fun _ _ => rfl, h8⟩, fun f hff => Option.noConfusion hff⟩
    | insert rid tuple =>
      have hwf2 : inTxn = true := by simpa [eventWf] using hwf
      cases hl : g.sess.relations.lookup rid with
      | none => simp [ghostStep, batcherStep, processMsg, hl] at hstep
      | some rel =>
        cases hpi : processInsertV2 mi rel tuple with
        | ok p =>
          obtain ⟨q, vals⟩ := p
          simp only [ghostStep, batcherStep, processMsg, hl, hpi,
            ApplyContext.queue, ProcResult.ok.injEq, Prod.mk.injEq] at hstep
          obtain ⟨hg, hf⟩ := hstep
          subst hg; subst hf
          constructor
          · refine ⟨h1, by simp [h2], ?_, h4, ?_, h6, ?_, ?_⟩
            · intro tg htg
              rcases List.mem_append.mp htg with hm | hm
              · exact h3 tg hm
              · simp at hm; subst hm; exact Nat.le_refl _
            · intro hfalse
              rw [hwf2] at hfalse
              exact Bool.noConfusion hfalse
            · intro harm _
              have := h6 harm
              rw [hwf2] at this
              exact Bool.noConfusion this
            · intro op hop
              rcases List.mem_append.mp hop with hm | hm
              · exact h8 op hm
              · simp at hm; subst hm; exact ⟨q, vals, rfl⟩
          · intro f hff; exact Option.noConfusion hff
        | fatal m2 => simp [ghostStep, batcherStep, processMsg, hl, hpi] at hstep
        | panicked m2 => simp [ghostStep, batcherStep, processMsg, hl, hpi] at hstep
    | relation rel =>
      simp only [ghostStep, batcherStep, processMsg, ProcResult.ok.injEq,
        Prod.mk.injEq] at hstep
      obtain ⟨hg, hf⟩ := hstep
      subst hg; subst hf
      exact ⟨⟨h1, h2, h3, h4, h5, h6, h7, h8⟩, fun f hff => Option.noConfusion hff⟩
    | update xid rid tuple =>
      simp only [ghostStep, batcherStep, processMsg, ProcResult.ok.injEq,
        Prod.mk.injEq] at hstep
      obtain ⟨hg, hf⟩ := hstep
      subst hg; subst hf
      exact ⟨⟨h1, h2, h3, h4, h5, h6, h7, h8⟩, fun f hff => Option.noConfusion hff⟩
    | delete xid rid tuple =>
      simp only [ghostStep, batcherStep, processMsg, ProcResult.ok.injEq,
        Prod.mk.injEq] at hstep
      obtain ⟨hg, hf⟩ := hstep
      subst hg; subst hf
      exact ⟨⟨h1, h2, h3, h4, h5, h6, h7, h8⟩, fun f hff => Option.noConfusion hff⟩
    | truncate xid rid =>
      simp only [ghostStep, batcherStep, processMsg, ProcResult.ok.injEq,
        Prod.mk.injEq] at hstep
      obtain ⟨hg, hf⟩ := hstep
      subst hg; subst hf
      exact ⟨⟨h1, h2, h3, h4, h5, h6, h7, h8⟩, fun f hff => Option.noConfusion hff⟩
    | typeMsg =>
      simp only [ghostStep, batcherStep, processMsg, ProcResult.ok.injEq,
        Prod.mk.injEq] at hstep
      obtain ⟨hg, hf⟩ := hstep
      subst hg; subst hf
      exact ⟨⟨h1, h2, h3, h4, h5, h6, h7, h8⟩, fun f hff => Option.noConfusion hff⟩
    | origin =>
      simp only [ghostStep, batcherStep, processMsg, ProcResult.ok.injEq,
        Prod.mk.injEq] at hstep
      obtain ⟨hg, hf⟩ := hstep
      subst hg; subst hf
      exact ⟨⟨h1, h2, h3, h4, h5, h6, h7, h8⟩, fun f hff => Option.noConfusion hff⟩
    | logicalDecoding pfx content =>
      simp only [ghostStep, batcherStep, processMsg, ProcResult.ok.injEq,
        Prod.mk.injEq] at hstep
      obtain ⟨hg, hf⟩ := hstep
      subst hg; subst hf
      exact ⟨⟨h1, h2, h3, h4, h5, h6, h7, h8⟩, fun f hff => Option.noConfusion hff⟩
    | streamStart xid fs =>
      simp only [ghostStep, batcherStep, processMsg, ProcResult.ok.injEq,
        Prod.mk.injEq] at hstep
      obtain ⟨hg, hf⟩ := hstep
      subst hg; subst hf
      exact ⟨⟨h1, h2, h3, h4, h5, h6, h7, h8⟩, fun f hff => Option.noConfusion hff⟩
    | streamStop =>
      simp only [ghostStep, batcherStep, processMsg, ProcResult.ok.injEq,
        Prod.mk.injEq] at hstep
      obtain ⟨hg, hf⟩ := hstep
      subst hg; subst hf
      exact ⟨⟨h1, h2, h3, h4, h5, h6, h7, h8⟩, fun f hff => Option.noConfusion hff⟩
    | streamCommit xid =>
      simp only [ghostStep, batcherStep, processMsg, ProcResult.ok.injEq,
        Prod.mk.injEq] at hstep
      obtain ⟨hg, hf⟩ := hstep
      subst hg; subst hf
      exact ⟨⟨h1, h2, h3, h4, h5, h6, h7, h8⟩, fun f hff => Option.noConfusion hff⟩
    | streamAbort xid =>
      simp only [ghostStep, batcherStep, processMsg, ProcResult.ok.injEq,
        Prod.mk.injEq] at hstep
      obtain ⟨hg, hf⟩ := hstep
      subst hg; subst hf
      exact ⟨⟨h1, h2, h3, h4, h5, h6, h7, h8⟩, fun f hff => Option.noConfusion hff⟩
    | unknown =>
      simp only [ghostStep, batcherStep, processMsg, ProcResult.ok.injEq,
        Prod.mk.injEq] at hstep
      obtain ⟨hg, hf⟩ := hstep
      subst hg; subst hf
      exact ⟨⟨h1, h2, h3, h4, h5, h6, h7, h8⟩, fun f hff => Option.noConfusion hff⟩

/-- Every flush executed along a protocol-well-formed run from an invariant
state satisfies `FlushOk`. -/
lemma runGhost_flushOk (mi : TypeMap) :
    ∀ (trace : List (BatcherEvent × PgTime)) (g : GhostState) (inTxn : Bool),
      wfTrace trace inTxn = true → GhostInv g inTxn →
      ∀ f ∈ (runGhost mi trace g).1, FlushOk f := by
  intro trace
  induction trace with
  | nil =>
    intro g inTxn hwf hinv f hf
    simp [runGhost] at hf
  | cons et rest ih =>
    intro g inTxn hwf hinv f hf
    obtain ⟨e, t⟩ := et
    have hwf1 : eventWf e inTxn = true ∧ wfTrace rest (nextInTxn e inTxn) = true := by
      simpa [wfTrace, Bool.and_eq_true] using hwf
    cases hstep : ghostStep mi e t g with
    | ok p =>
      obtain ⟨g2, fr⟩ := p
      obtain ⟨hinv2, hout⟩ :=
        ghostStep_inv mi e t g inTxn g2 fr hwf1.1 hinv hstep
      simp only [runGhost, hstep] at hf
      cases fr with
      | some f2 =>
        simp only [List.mem_cons] at hf
        rcases hf with hf | hf
        · subst hf; exact hout _ rfl
        · exact ih g2 _ hwf1.2 hinv2 f hf
      | none => exact ih g2 _ hwf1.2 hinv2 f hf
    | fatal m => simp [runGhost, hstep] at hf
    | panicked m => simp [runGhost, hstep] at hf

/-- The state `main` starts the batcher in satisfies the run-time invariant
(no transaction open, empty batch, timer freshly armed, nothing committed). -/
lemma initGhost_inv (now0 : PgTime) : GhostInv (initGhost now0) false := by
  refine ⟨rfl, rfl, ?_, Nat.le_refl 0, ?_, fun _ => rfl, ?_, ?_⟩
  · intro tg htg; simp [initGhost] at htg
  · intro _ tg htg; simp [initGhost] at htg
  · intro _ hb; exact absurd rfl hb
  · intro op hop; simp [initGhost, initSession, initApplyContext] at hop

/-- C2: along any protocol-well-formed run of the batcher from its initial
state, every executed flush sends only operations whose transaction's commit
event had already been observed (each drained operation's transaction tag is
at most the highest committed transaction at flush time, and the flushed
group is exactly those tagged operations plus the origin-acknowledgment) —
no partial-transaction visibility. -/
theorem committedTransactionsOnlyFlushed (mi : TypeMap) (now0 : PgTime)
    (trace : List (BatcherEvent × PgTime))
    (hwf : wfTrace trace false = true) :
    ∀ f ∈ (runGhost mi trace (initGhost now0)).1,
      (∀ tg ∈ f.tags, tg ≤ f.committedUpTo) ∧
      f.tags.length + 1 = f.group.length := by
  intro f hf
  obtain ⟨hc, p, t, hlc, pre, hgrp, hlen, hw⟩ :=
    runGhost_flushOk mi trace (initGhost now0) false hwf (initGhost_inv now0) f hf
  refine ⟨hc, ?_⟩
  rw [hgrp]
  simp [hlen]

/-- Witness trace for C2: schema for `public.t`, then one committed
transaction with one insert, committing 10 time units after start (past the
threshold, so it flushes immediately). -/
def traceOneTxn : List (BatcherEvent × PgTime) :=
  [(BatcherEvent.msg (LogicalMsg.relation relPublicT), 0),
   (BatcherEvent.msg LogicalMsg.begin_, 1),
   (BatcherEvent.msg (LogicalMsg.insert 1
      [{ kind := ColKind.text, data := "5" },
       { kind := ColKind.text, data := "x" }]), 1),
   (BatcherEvent.msg (LogicalMsg.commit 100 50), 10)]

/-- Witness for C2 at a concrete input. -/
theorem committedTransactionsOnlyFlushed_witness :
    wfTrace traceOneTxn false = true ∧
    (∀ f ∈ (runGhost emptyTypeMap traceOneTxn (initGhost 0)).1,
      (∀ tg ∈ f.tags, tg ≤ f.committedUpTo) ∧
      f.tags.length + 1 = f.group.length) :=
  ⟨by decide,
   committedTransactionsOnlyFlushed emptyTypeMap 0 traceOneTxn (by decide)⟩

/-- C4: a flush of an empty pending batch is a no-op (state returned
unchanged, nothing sent); and along any protocol-well-formed run from the
initial state, every executed flush sends a group whose final operation is
exactly one replication-origin acknowledgment, carrying the commit position
and timestamp of the most recent commit event folded into the batch, after
all the queued write operations. -/
theorem flushEmptyNoopAndFinalAck :
    (∀ (a : ApplyContext) (now : PgTime), a.batch = [] →
      a.flush now = (a, none)) ∧
    (∀ (mi : TypeMap) (now0 : PgTime) (trace : List (BatcherEvent × PgTime)),
      wfTrace trace false = true →
      ∀ f ∈ (runGhost mi trace (initGhost now0)).1,
        ∃ p t, f.lastCommit = some (p, t) ∧
          ∃ pre, f.group = pre ++ [QueuedOp.originAck p t] ∧
            (∀ op ∈ pre, ∃ q vs, op = QueuedOp.write q vs)) := by
  constructor
  · intro a now hb
    simp [ApplyContext.flush, hb]
  · intro mi now0 trace hwf f hf
    obtain ⟨hc, p, t, hlc, pre, hgrp, hlen, hw⟩ :=
      runGhost_flushOk mi trace (initGhost now0) false hwf (initGhost_inv now0) f hf
    exact ⟨p, t, hlc, pre, hgrp, hw⟩

/-- Witness trace for C4: two transactions committing in quick succession;
the second commit arms the timer and the later timer fire flushes both. -/
def traceTwoTxn : List (BatcherEvent × PgTime) :=
  [(BatcherEvent.msg (LogicalMsg.relation relPublicT), 0),
   (BatcherEvent.msg LogicalMsg.begin_, 1),
   (BatcherEvent.msg (LogicalMsg.insert 1
      [{ kind := ColKind.text, data := "5" },
       { kind := ColKind.null, data := "" }]), 1),
   (BatcherEvent.msg (LogicalMsg.commit 100 50), 2),
   (BatcherEvent.msg LogicalMsg.begin_, 3),
   (BatcherEvent.msg (LogicalMsg.insert 1
      [{ kind := ColKind.text, data := "6" },
       { kind := ColKind.text, data := "y" }]), 3),
   (BatcherEvent.msg (LogicalMsg.commit 200 60), 3),
   (BatcherEvent.timerFire, 5)]

/-- Witness for C4 at a concrete input. -/
theorem flushEmptyNoopAndFinalAck_witness :
    (initApplyContext 7).batch = [] ∧
    (initApplyContext 7).flush 9 = (initApplyContext 7, none) ∧
    wfTrace traceTwoTxn false = true ∧
    (∀ f ∈ (runGhost emptyTypeMap traceTwoTxn (initGhost 0)).1,
      ∃ p t, f.lastCommit = some (p, t) ∧
        ∃ pre, f.group = pre ++ [QueuedOp.originAck p t] ∧
          (∀ op ∈ pre, ∃ q vs, op = QueuedOp.write q vs)) :=
  ⟨rfl, flushEmptyNoopAndFinalAck.1 (initApplyContext 7) 9 rfl, by decide,
   flushEmptyNoopAndFinalAck.2 emptyTypeMap 0 traceTwoTxn (by decide)⟩

end PglogreplDemo
